import Mathlib

/-!
Shallow embedding of `src/datasource.ts` (FileSystemDatasource): the
fetch-cache-parse pipeline, parser selection, the query orchestrator and
the connectivity test.  External collaborators (the FileSystem backends,
the three parsers, templateSrv, processChanges, Date.now) are passed in
through an `Env` record, mirroring how the TypeScript class receives or
imports them; everything written in `datasource.ts` itself is translated
directly.
-/

namespace AvroDS

/-- JS `String.prototype.startsWith`-style check on char lists. -/
def startsWithList : List Char → List Char → Bool
  | _, [] => true
  | [], _ :: _ => false
  | x :: xs, y :: ys => x == y && startsWithList xs ys

/-- JS `hay.indexOf(needle) >= 0`: substring containment on char lists. -/
def containsList (hay needle : List Char) : Bool :=
  match hay with
  | [] => needle.isEmpty
  | _ :: t => startsWithList hay needle || containsList t needle

/-- Index of the last occurrence of `c`, as JS `lastIndexOf` (none for -1). -/
def lastIndexOfChar (c : Char) : List Char → Option Nat
  | [] => none
  | x :: xs =>
    match lastIndexOfChar c xs with
    | some i => some (i + 1)
    | none => if x == c then some 0 else none

/-- First normalization step of `_fetchOrUseCached`: truncate at the
last `?` when its index is positive (`idx > 0`). -/
def normQ (path : List Char) : List Char :=
  match lastIndexOfChar '?' path with
  | some i => if 0 < i then path.take i else path
  | none => path

/-- Second normalization step as written in the code: the index is taken
in `norm`, but the substring is taken from `path`
(`norm = path.substring(0, idx)`). -/
def normH (path norm : List Char) : List Char :=
  match lastIndexOfChar '#' norm with
  | some i => if 0 < i then path.take i else norm
  | none => norm

/-- Final step: lowercase what follows the last `.` when its index is
positive (so a leading-dot-only name has no extension). -/
def extAfterDot (norm2 : List Char) : List Char :=
  match lastIndexOfChar '.' norm2 with
  | some i => if 0 < i then (norm2.drop (i + 1)).map Char.toLower else []
  | none => []

/-- The extension-normalization block of `_fetchOrUseCached`
(`datasource.ts` lines 138-153). -/
def getExtList (path : List Char) : List Char :=
  extAfterDot (normH path (normQ path))

/-- Specification-side reading of the same block: each truncation applies
to the running normalized value (`norm`), never back to `path`. -/
def getExtSpecList (path : List Char) : List Char :=
  extAfterDot (normH (normQ path) (normQ path))

def getExt (p : String) : String := ⟨getExtList p.data⟩

def getExtSpec (p : String) : String := ⟨getExtSpecList p.data⟩

/-- The uniform tabular representation produced by the parsers. -/
structure Table where
  columns : List String
  rows : List (List String)
deriving DecidableEq

abbrev Datapoints := List (Int × Int)

/-- Result of `processChanges` (imported from `response_parser`). -/
structure SeriesInfo where
  order : List String
  series : List (String × Datapoints)

/-- What the orchestrator reads off a backend response: the
`content-type` header (absent when the backend supplies none). -/
structure Response where
  contentType : Option String
deriving DecidableEq

inductive ParserKind where
  | csv
  | avro
  | json
deriving DecidableEq

/-- `class CachedTable { path; timestamp; table }`. `table` is optional
because the code guards with `t && t.table`. -/
structure CachedTable where
  path : String
  table : Option Table
  timestamp : Nat
deriving DecidableEq

/-- `static cache = new Map<string, CachedTable>()`, as an insertion-order
association list (JS `Map` semantics). -/
abbrev Cache := List (String × CachedTable)

def cacheGet (c : Cache) (p : String) : Option CachedTable :=
  match c with
  | [] => none
  | (q, v) :: rest => if q = p then some v else cacheGet rest p

/-- JS `Map.set`: replace in place when the key exists, append otherwise. -/
def cacheSet (c : Cache) (p : String) (v : CachedTable) : Cache :=
  match c with
  | [] => [(p, v)]
  | (q, w) :: rest => if q = p then (p, v) :: rest else (q, w) :: cacheSet rest p v

/-- The compound `t && t.table` cache-hit test. -/
def cacheHitTable (c : Cache) (p : String) : Option Table :=
  match cacheGet c p with
  | some ct => ct.table
  | none => none

structure DirectoryInfo where
  files : List String
deriving DecidableEq

/-- Error object received by `testDatasource`'s catch: its string
coercion plus the truthiness of its `cancelled` and `err` fields. -/
structure ListError where
  msg : String
  cancelled : Bool
  err : Bool
deriving DecidableEq

structure TestResult where
  status : String
  message : String
deriving DecidableEq

/-- One entry of `options.targets`: `path` (absent or possibly empty,
both falsy-filtered) and the `changes` flag. -/
structure QueryTarget where
  path : Option String
  changes : Bool
deriving DecidableEq

/-- External collaborators of the datasource: the selected backend's
`fetch`, the three parsers (`parse` dispatched on kind), templateSrv
variable replacement, `Date.now`, and `processChanges`. -/
structure Env where
  fetch : String → Bool → Except String Response
  parse : ParserKind → Response → Option String → Except String Table
  replace : String → String
  now : Nat
  processChanges : Table → SeriesInfo

/-- `contentType && contentType.indexOf("json") >= 0`. -/
def ctContainsJson : Option String → Bool
  | some ct => containsList ct.data "json".data
  | none => false

/-- Parser choice in `_fetchOrUseCached`: default csv, overridden to json
when the content-type mentions json, else to avro when the path extension
is avro. -/
def selectParser (contentType : Option String) (isAvro : Bool) : ParserKind :=
  if ctContainsJson contentType then .json
  else if isAvro then .avro
  else .csv

structure FetchOutcome where
  result : Except String Table
  cache : Cache
  fetches : List (String × Bool)

/-- The miss path of `_fetchOrUseCached`: fetch with
`isBinary = isAvro = (ext === "avro")`, pick the parser, parse, and only
on success store a `CachedTable` stamped with `Date.now()` (taken after
the parse). -/
def doFetch (env : Env) (cache : Cache) (path : String) : FetchOutcome :=
  match env.fetch path (getExt path == "avro") with
  | .error e => { result := .error e, cache := cache, fetches := [(path, getExt path == "avro")] }
  | .ok res =>
    match env.parse (selectParser res.contentType (getExt path == "avro")) res res.contentType with
    | .error e =>
      { result := .error e, cache := cache, fetches := [(path, getExt path == "avro")] }
    | .ok table =>
      { result := .ok table
        cache := cacheSet cache path { path := path, table := some table, timestamp := env.now }
        fetches := [(path, getExt path == "avro")] }

/-- `_fetchOrUseCached(path)`: resolve from the cache when the entry and
its table are present, otherwise fetch and parse. -/
def fetchOrUseCached (env : Env) (cache : Cache) (path : String) : FetchOutcome :=
  match cacheGet cache path with
  | some t =>
    match t.table with
    | some tbl => { result := .ok tbl, cache := cache, fetches := [] }
    | none => doFetch env cache path
  | none => doFetch env cache path

/-- One element of the flattened `data` array: either a raw `Table` or
one `{target, alias, datapoints}` series entry built by the changes
branch. -/
inductive DataItem where
  | table (t : Table)
  | series (target : String) (aliasName : String) (datapoints : Option Datapoints)
deriving DecidableEq

/-- A single target's resolved value before `_.flattenDeep`: one Table,
or the `ddd` array of series entries. -/
inductive TargetData where
  | single (t : Table)
  | many (xs : List DataItem)
deriving DecidableEq

/-- `_.flattenDeep` applied to the `Promise.all` result: raw tables stay
whole (they are objects, not arrays), the `ddd` arrays flatten one
level. -/
def flattenTargets : List TargetData → List DataItem
  | [] => []
  | .single t :: rest => .table t :: flattenTargets rest
  | .many xs :: rest => xs ++ flattenTargets rest

def seriesLookup (l : List (String × Datapoints)) (name : String) : Option Datapoints :=
  match l with
  | [] => none
  | (q, v) :: rest => if q = name then some v else seriesLookup rest name

/-- The per-target continuation in `query`: fetch-or-cache, then apply
the changes transform when the flag is set. -/
def resolveTarget (env : Env) (cache : Cache) (req : String) (changes : Bool) :
    Except String TargetData × List (String × Bool) :=
  let out := fetchOrUseCached env cache req
  (out.result.map fun table =>
      if changes then
        let info := env.processChanges table
        TargetData.many (info.order.map fun name =>
          DataItem.series name name (seriesLookup info.series name))
      else TargetData.single table,
   out.fetches)

/-- JS truthiness of `target.path`. -/
def truthyPath : Option String → Bool
  | some s => !(s == "")
  | none => false

/-- `options.targets.filter(t => t.path).map(...)`: surviving targets as
(replaced request, changes flag) pairs. -/
def queryTargetsOf (env : Env) (targets : List QueryTarget) : List (String × Bool) :=
  (targets.filter fun t => truthyPath t.path).map fun t =>
    (env.replace (t.path.getD ""), t.changes)

def isOkE {α : Type} : Except String α → Bool
  | .ok _ => true
  | .error _ => false

/-- `Promise.all`: first rejection rejects the join, otherwise collect in
order. -/
def sequenceE {α : Type} : List (Except String α) → Except String (List α)
  | [] => .ok []
  | .error e :: _ => .error e
  | .ok a :: rest => (sequenceE rest).map (a :: ·)

structure QueryResult where
  result : Except String (List DataItem)
  fetches : List (String × Bool)

/-- `query(options)`: drop falsy-path targets, return `{data: []}` when
none remain, otherwise resolve every target (each reads the cache state
current when the query started, as the synchronous `cache.get` calls do)
and flatten the joined results. -/
def query (env : Env) (cache : Cache) (targets : List QueryTarget) : QueryResult :=
  let queryTargets := queryTargetsOf env targets
  if queryTargets.isEmpty then { result := .ok [], fetches := [] }
  else
    let queries := queryTargets.map fun q => resolveTarget env cache q.1 q.2
    let log := (queries.map fun q => q.2).flatten
    match sequenceE (queries.map fun q => q.1) with
    | .error e => { result := .error e, fetches := log }
    | .ok ds => { result := .ok (flattenTargets ds), fetches := log }

/-- Specification-side description of one resolved target's contribution
to the data list: a changes target contributes one entry per name of
`SeriesInfo.order`, in that order, carrying the name as target and alias
and the datapoints looked up in the series map; a plain target
contributes its raw table. -/
def specEntryOf (env : Env) (cache : Cache) (q : String × Bool) : List DataItem :=
  match (fetchOrUseCached env cache q.1).result with
  | .ok table =>
    if q.2 then
      (env.processChanges table).order.map fun name =>
        DataItem.series name name (seriesLookup (env.processChanges table).series name)
    else [DataItem.table table]
  | .error _ => []

/-- Specification-side description of a successful query's data list:
the targets' contributions concatenated in original target order. -/
def querySpecData (env : Env) (cache : Cache) (targets : List QueryTarget) : List DataItem :=
  (queryTargetsOf env targets).flatMap (specEntryOf env cache)

inductive FSKind where
  | localFS
  | nginxFS
  | s3FS
  | unknownFS
deriving DecidableEq

/-- What `registry[type]` can evaluate to in JS. The registry is a plain
object literal, so the member lookup walks the prototype chain after the
own keys: an inherited `Object.prototype` member is a truthy value whose
`create` is not callable — except `constructor`, which is `Object`, whose
`create` is the (callable) `Object.create`. -/
inductive RegistryMember where
  | builder (k : FSKind)
  | protoFunction
  | protoConstructor
deriving DecidableEq

/-- The `Object.prototype` property names other than `constructor`
(handled separately because `Object.create` is callable). -/
def objectProtoKeys : List String :=
  ["hasOwnProperty", "isPrototypeOf", "propertyIsEnumerable", "toLocaleString",
   "toString", "valueOf", "__defineGetter__", "__defineSetter__",
   "__lookupGetter__", "__lookupSetter__", "__proto__"]

/-- `FileSystemDatasource.registry[ty]`: the own keys `local`, `nginx`,
`s3`, then the inherited `Object.prototype` members, then `undefined`. -/
def registryLookup (ty : String) : Option RegistryMember :=
  if ty = "local" then some (.builder .localFS)
  else if ty = "nginx" then some (.builder .nginxFS)
  else if ty = "s3" then some (.builder .s3FS)
  else if ty = "constructor" then some .protoConstructor
  else if ty ∈ objectProtoKeys then some .protoFunction
  else none

/-- Outcome of the constructor's backend selection. -/
inductive ConstructionResult where
  | installs (fs : FSKind)
  | throwsTypeError
  | objectCreateCall
deriving DecidableEq

/-- The constructor's backend selection: when `registry[type]` is truthy,
`builder.create(...)` runs — a real builder installs its backend, an
inherited `Object.prototype` function or accessor value has no callable
`create` so construction throws a TypeError, and the inherited
`constructor` member invokes `Object.create` (throwing or producing a
non-FileSystem object, never an install of a backend); only a falsy
lookup (absent `type` included) installs `new UnknownFileSystem(...)`. -/
def constructBackend (ty : Option String) : ConstructionResult :=
  match ty with
  | none => .installs .unknownFS
  | some t =>
    match registryLookup t with
    | some (.builder k) => .installs k
    | some .protoFunction => .throwsTypeError
    | some .protoConstructor => .objectCreateCall
    | none => .installs .unknownFS

/-- Modelled from the spec: `UnknownFileSystem` (under `src/fs/`, not
included in the sources) fails every `fetch` with
`UnsupportedBackendError` instead of crashing construction. -/
def unknownFetch (_path : String) (_binary : Bool) : Except String Response :=
  .error "UnsupportedBackendError"

/-- `testDatasource()`: list the root, report the file count on success;
any failure is caught and converted to a status object, with a generic
message when the error has truthy `cancelled` and `err` fields. -/
def testDatasource (listResult : Except ListError DirectoryInfo) : TestResult :=
  match listResult with
  | .ok dir =>
    { status := "success", message := "Root Contains " ++ toString dir.files.length ++ " Files" }
  | .error e =>
    let rsp : TestResult := { status := "error", message := "Error: " ++ e.msg }
    if e.cancelled && e.err then
      { rsp with
        message := "Error making HTTP request.  Check the javascrit console for more information" }
    else rsp

theorem lastIndexOfChar_lt_length (c : Char) (l : List Char) (i : Nat)
    (h : lastIndexOfChar c l = some i) : i < l.length := by
  induction l generalizing i with
  | nil => simp [lastIndexOfChar] at h
  | cons x xs ih =>
    simp only [lastIndexOfChar] at h
    cases hr : lastIndexOfChar c xs with
    | some j =>
      simp only [hr, Option.some.injEq] at h
      subst h
      have := ih j hr
      simp only [List.length_cons]
      omega
    | none =>
      simp only [hr] at h
      by_cases hx : x == c
      · simp only [hx, if_true, Option.some.injEq] at h
        subst h
        simp
      · simp [hx] at h

theorem normQ_is_take (path : List Char) : ∃ k, normQ path = path.take k := by
  unfold normQ
  cases h : lastIndexOfChar '?' path with
  | none => exact ⟨path.length, by rw [List.take_length]⟩
  | some i =>
    by_cases hi : 0 < i
    · exact ⟨i, by simp only [hi, if_true]⟩
    · exact ⟨path.length, by simp only [hi, if_false, List.take_length]⟩

theorem normH_take_eq (path : List Char) (k : Nat) :
    normH path (path.take k) = normH (path.take k) (path.take k) := by
  unfold normH
  cases h : lastIndexOfChar '#' (path.take k) with
  | none => rfl
  | some j =>
    by_cases hj : 0 < j
    · simp only [hj, if_true, List.take_take]
      have hlt := lastIndexOfChar_lt_length '#' (path.take k) j h
      rw [List.length_take] at hlt
      congr 1
      omega
    · simp only [hj, if_false]

theorem getExtList_eq_spec (path : List Char) : getExtList path = getExtSpecList path := by
  unfold getExtList getExtSpecList
  obtain ⟨k, hk⟩ := normQ_is_take path
  rw [hk, normH_take_eq]

theorem fetchOrUseCached_of_miss (env : Env) (c : Cache) (p : String)
    (h : cacheHitTable c p = none) : fetchOrUseCached env c p = doFetch env c p := by
  unfold cacheHitTable at h
  unfold fetchOrUseCached
  cases hg : cacheGet c p with
  | none => rfl
  | some ct =>
    simp only [hg] at h
    simp only [h]

theorem doFetch_fetches (env : Env) (c : Cache) (p : String) :
    (doFetch env c p).fetches = [(p, getExt p == "avro")] := by
  unfold doFetch
  split
  · rfl
  · split <;> rfl

theorem doFetch_result_cache (env : Env) (c : Cache) (p : String) :
    ((doFetch env c p).cache = c ∧ isOkE (doFetch env c p).result = false)
    ∨ ∃ tbl, (doFetch env c p).result = .ok tbl ∧
        (doFetch env c p).cache = cacheSet c p ⟨p, some tbl, env.now⟩ := by
  unfold doFetch
  split
  · exact Or.inl ⟨rfl, rfl⟩
  · split
    · exact Or.inl ⟨rfl, rfl⟩
    · exact Or.inr ⟨_, rfl, rfl⟩

theorem cacheGet_set_self (c : Cache) (p : String) (v : CachedTable) :
    cacheGet (cacheSet c p v) p = some v := by
  induction c with
  | nil => simp [cacheSet, cacheGet]
  | cons hd rest ih =>
    obtain ⟨q, w⟩ := hd
    by_cases hq : q = p
    · subst hq
      simp [cacheSet, cacheGet]
    · simp [cacheSet, cacheGet, hq, ih]

theorem cacheGet_set_ne (c : Cache) (p q : String) (v : CachedTable) (h : q ≠ p) :
    cacheGet (cacheSet c p v) q = cacheGet c q := by
  induction c with
  | nil => simp [cacheSet, cacheGet, Ne.symm h]
  | cons hd rest ih =>
    obtain ⟨r, w⟩ := hd
    by_cases hr : r = p
    · subst hr
      simp [cacheSet, cacheGet, Ne.symm h]
    · by_cases hrq : r = q
      · subst hrq
        simp [cacheSet, cacheGet, hr]
      · simp [cacheSet, cacheGet, hr, hrq, ih]

theorem cacheSet_cons_self (r : String) (w v : CachedTable) (rest : Cache) :
    cacheSet ((r, w) :: rest) r v = (r, v) :: rest := by
  unfold cacheSet
  rw [if_pos rfl]

theorem cacheSet_cons_ne (r p : String) (w v : CachedTable) (rest : Cache) (h : r ≠ p) :
    cacheSet ((r, w) :: rest) p v = (r, w) :: cacheSet rest p v := by
  simp only [cacheSet]
  rw [if_neg h]

theorem cacheSet_key_mem (c : Cache) (p : String) (v : CachedTable) (a : String)
    (h : a ∈ (cacheSet c p v).map Prod.fst) : a ∈ c.map Prod.fst ∨ a = p := by
  induction c with
  | nil =>
    rw [show cacheSet ([] : Cache) p v = [(p, v)] from rfl] at h
    rw [List.map_cons, List.map_nil, List.mem_cons] at h
    rcases h with h | h
    · exact Or.inr h
    · cases h
  | cons hd rest ih =>
    obtain ⟨r, w⟩ := hd
    by_cases hr : r = p
    · subst hr
      rw [cacheSet_cons_self, List.map_cons, List.mem_cons] at h
      rcases h with h | h
      · exact Or.inr h
      · exact Or.inl (by rw [List.map_cons]; exact List.mem_cons_of_mem _ h)
    · rw [cacheSet_cons_ne r p w v rest hr, List.map_cons, List.mem_cons] at h
      rcases h with h | h
      · subst h
        exact Or.inl (by rw [List.map_cons]; exact List.mem_cons_self _ _)
      · rcases ih h with h2 | h2
        · exact Or.inl (by rw [List.map_cons]; exact List.mem_cons_of_mem _ h2)
        · exact Or.inr h2

theorem cacheSet_nodup (c : Cache) (p : String) (v : CachedTable)
    (h : (c.map Prod.fst).Nodup) : ((cacheSet c p v).map Prod.fst).Nodup := by
  induction c with
  | nil => simp [cacheSet]
  | cons hd rest ih =>
    obtain ⟨r, w⟩ := hd
    rw [List.map_cons, List.nodup_cons] at h
    obtain ⟨hr_nin, hrest⟩ := h
    by_cases hr : r = p
    · subst hr
      rw [cacheSet_cons_self, List.map_cons, List.nodup_cons]
      exact ⟨hr_nin, hrest⟩
    · rw [cacheSet_cons_ne r p w v rest hr, List.map_cons, List.nodup_cons]
      refine ⟨?_, ih hrest⟩
      intro hmem
      rcases cacheSet_key_mem rest p v r hmem with h2 | h2
      · exact hr_nin h2
      · exact hr h2

theorem fetchOrUseCached_of_hit (env : Env) (c : Cache) (p : String) (tbl : Table)
    (h : cacheHitTable c p = some tbl) :
    fetchOrUseCached env c p = ⟨.ok tbl, c, []⟩ := by
  unfold cacheHitTable at h
  unfold fetchOrUseCached
  cases hg : cacheGet c p with
  | none =>
    simp only [hg] at h
    exact Option.noConfusion h
  | some ct =>
    simp only [hg] at h
    simp only [h]

theorem fetchOrUseCached_cache_cases (env : Env) (c : Cache) (p : String) :
    (fetchOrUseCached env c p).cache = c
    ∨ ∃ tbl, (fetchOrUseCached env c p).cache = cacheSet c p ⟨p, some tbl, env.now⟩ := by
  cases hh : cacheHitTable c p with
  | some tbl =>
    rw [fetchOrUseCached_of_hit env c p tbl hh]
    exact Or.inl rfl
  | none =>
    rw [fetchOrUseCached_of_miss env c p hh]
    rcases doFetch_result_cache env c p with ⟨hc, _⟩ | ⟨tbl, _, hc⟩
    · exact Or.inl hc
    · exact Or.inr ⟨tbl, hc⟩

/-- Claim C1: a cache hit whose entry holds a table is returned exactly as
cached, with no backend fetch and no cache modification; a miss fetches,
parses, stores a `CachedTable` for the path stamped with `Date.now()`
taken after the parse, and returns the freshly parsed table. -/
theorem cache_hit_or_fetch_parse_store (env : Env) (c : Cache) (p : String) :
    (∀ ct tbl, cacheGet c p = some ct → ct.table = some tbl →
        fetchOrUseCached env c p = ⟨.ok tbl, c, []⟩)
    ∧ (∀ res tbl, cacheHitTable c p = none →
        env.fetch p (getExt p == "avro") = .ok res →
        env.parse (selectParser res.contentType (getExt p == "avro")) res res.contentType =
          .ok tbl →
        fetchOrUseCached env c p =
          ⟨.ok tbl, cacheSet c p ⟨p, some tbl, env.now⟩, [(p, getExt p == "avro")]⟩) := by
  constructor
  · intro ct tbl hg ht
    unfold fetchOrUseCached
    simp only [hg, ht]
  · intro res tbl hmiss hf hp
    rw [fetchOrUseCached_of_miss env c p hmiss]
    unfold doFetch
    simp only [hf, hp]

/-- Claim C9: when the backend fetch rejects or the parser throws, no
cache entry is created or modified: a failed resolution leaves the cache
unchanged. -/
theorem fetch_failure_leaves_cache_unchanged (env : Env) (c : Cache) (p : String) (e : String)
    (h : (fetchOrUseCached env c p).result = .error e) :
    (fetchOrUseCached env c p).cache = c := by
  cases hh : cacheHitTable c p with
  | some tbl =>
    rw [fetchOrUseCached_of_hit env c p tbl hh] at h
    simp at h
  | none =>
    rw [fetchOrUseCached_of_miss env c p hh] at h ⊢
    rcases doFetch_result_cache env c p with ⟨hc, _⟩ | ⟨t2, hr, _⟩
    · exact hc
    · rw [hr] at h
      cases h

/-- Claim C8: every put overwrites the single entry for its path and
leaves other paths alone; the per-path uniqueness of entries (no
duplicate keys) is preserved by `_fetchOrUseCached`, and no entry is ever
removed by it (the `static` map has no TTL or eviction). -/
theorem cache_per_path_invariants (env : Env) (c : Cache) (p : String) :
    (∀ v, cacheGet (cacheSet c p v) p = some v)
    ∧ (∀ v q, q ≠ p → cacheGet (cacheSet c p v) q = cacheGet c q)
    ∧ (∀ v, (c.map Prod.fst).Nodup → ((cacheSet c p v).map Prod.fst).Nodup)
    ∧ ((c.map Prod.fst).Nodup → (((fetchOrUseCached env c p).cache).map Prod.fst).Nodup)
    ∧ (∀ q w, cacheGet c q = some w →
        ∃ u, cacheGet ((fetchOrUseCached env c p).cache) q = some u)
    ∧ (∀ q w, q ≠ p → cacheGet c q = some w →
        cacheGet ((fetchOrUseCached env c p).cache) q = some w) := by
  refine ⟨fun v => cacheGet_set_self c p v,
          fun v q h => cacheGet_set_ne c p q v h,
          fun v h => cacheSet_nodup c p v h, ?_, ?_, ?_⟩
  · intro h
    rcases fetchOrUseCached_cache_cases env c p with hc | ⟨tbl, hc⟩
    · rw [hc]; exact h
    · rw [hc]; exact cacheSet_nodup c p _ h
  · intro q w hq
    rcases fetchOrUseCached_cache_cases env c p with hc | ⟨tbl, hc⟩
    · exact ⟨w, by rw [hc]; exact hq⟩
    · by_cases hqp : q = p
      · subst hqp
        exact ⟨_, by rw [hc]; exact cacheGet_set_self c q _⟩
      · exact ⟨w, by rw [hc, cacheGet_set_ne c p q _ hqp]; exact hq⟩
  · intro q w hqp hq
    rcases fetchOrUseCached_cache_cases env c p with hc | ⟨tbl, hc⟩
    · rw [hc]; exact hq
    · rw [hc, cacheGet_set_ne c p q _ hqp]; exact hq

/-- Claim C10: on a cache miss the backend fetch is invoked exactly once,
with `binary` true exactly when the normalized extension is `avro`; the
code's normalization (which substrings `path` in the `#` step) agrees with
the specification-side normalization that truncates the running value. -/
theorem binary_fetch_iff_avro_extension (env : Env) (c : Cache) (p : String) :
    (cacheHitTable c p = none →
      (fetchOrUseCached env c p).fetches = [(p, getExt p == "avro")])
    ∧ getExt p = getExtSpec p := by
  constructor
  · intro h
    rw [fetchOrUseCached_of_miss env c p h, doFetch_fetches]
  · unfold getExt getExtSpec
    rw [getExtList_eq_spec]

theorem filter_none_of_all_false {α : Type} (p : α → Bool) (l : List α)
    (h : ∀ a ∈ l, p a = false) : l.filter p = [] := by
  induction l with
  | nil => rfl
  | cons x xs ih =>
    rw [List.filter_cons, h x (List.mem_cons_self x xs)]
    simp only [Bool.false_eq_true, if_false]
    exact ih fun a ha => h a (List.mem_cons_of_mem x ha)

theorem queryTargetsOf_filter (env : Env) (targets : List QueryTarget) :
    queryTargetsOf env (targets.filter fun t => truthyPath t.path) =
      queryTargetsOf env targets := by
  unfold queryTargetsOf
  rw [List.filter_filter]
  simp

/-- Claim C2: a query whose targets all have an empty or absent path
returns an empty data list and performs no backend fetch; in general,
falsy-path targets are dropped before any resolution (filtering them away
first does not change the query). -/
theorem query_empty_targets (env : Env) (c : Cache) (targets : List QueryTarget) :
    ((∀ t ∈ targets, truthyPath t.path = false) → query env c targets = ⟨.ok [], []⟩)
    ∧ query env c targets = query env c (targets.filter fun t => truthyPath t.path) := by
  constructor
  · intro hall
    have hfil : targets.filter (fun t => truthyPath t.path) = [] :=
      filter_none_of_all_false _ targets hall
    unfold query queryTargetsOf
    rw [hfil]
    rfl
  · unfold query
    rw [queryTargetsOf_filter]

/-- Claim C3 counterexample: the discriminator "toString" is not a
registry key, yet construction does not install an UnknownFileSystem — the
prototype-chain hit is truthy, so `builder.create(...)` throws a TypeError
during construction. -/
theorem unknown_discriminator_counterexample :
    "toString" ≠ "local" ∧ "toString" ≠ "nginx" ∧ "toString" ≠ "s3"
    ∧ constructBackend (some "toString") = ConstructionResult.throwsTypeError
    ∧ constructBackend (some "toString") ≠ ConstructionResult.installs FSKind.unknownFS :=
  ⟨by decide, by decide, by decide, rfl, by decide⟩

/-- Claim C3 (amended): for every discriminator that is neither a registry
key nor an inherited `Object.prototype` property name (and for an absent
discriminator), construction succeeds without throwing and installs the
UnknownFileSystem backend, whose fetch later fails with
`UnsupportedBackendError`; an `Object.prototype` name instead makes the
truthy prototype-chain hit the builder, so construction throws a TypeError
at `builder.create` — or, for `constructor`, calls `Object.create` — and
never installs the UnknownFileSystem. -/
theorem unknown_discriminator_safe (ty : String)
    (h1 : ty ≠ "local") (h2 : ty ≠ "nginx") (h3 : ty ≠ "s3")
    (h4 : ty ≠ "constructor") (h5 : ty ∉ objectProtoKeys) :
    constructBackend (some ty) = ConstructionResult.installs FSKind.unknownFS
    ∧ constructBackend none = ConstructionResult.installs FSKind.unknownFS
    ∧ (∀ p b, unknownFetch p b = .error "UnsupportedBackendError")
    ∧ (∀ t ∈ objectProtoKeys, constructBackend (some t) = ConstructionResult.throwsTypeError)
    ∧ constructBackend (some "constructor") = ConstructionResult.objectCreateCall := by
  refine ⟨?_, rfl, fun p b => rfl, by decide, rfl⟩
  have hreg : registryLookup ty = none := by
    unfold registryLookup
    rw [if_neg h1, if_neg h2, if_neg h3, if_neg h4, if_neg h5]
  unfold constructBackend
  simp only [hreg]

/-- Claim C4: parser selection is total in (content-type, extension):
json when the content-type contains "json", else avro when the extension
is "avro", else the csv default; exactly one branch applies. -/
theorem parser_selection_total (ct : Option String) (ext : String) :
    (ctContainsJson ct = true → selectParser ct (ext == "avro") = .json)
    ∧ (ctContainsJson ct = false → ext = "avro" →
        selectParser ct (ext == "avro") = .avro)
    ∧ (ctContainsJson ct = false → ext ≠ "avro" →
        selectParser ct (ext == "avro") = .csv) := by
  refine ⟨?_, ?_, ?_⟩
  · intro h
    simp [selectParser, h]
  · intro h he
    subst he
    simp [selectParser, h]
  · intro h he
    simp [selectParser, h, he]

theorem sequenceE_error_of_mem {α : Type} (l : List (Except String α))
    (x : Except String α) (hx : x ∈ l) (h : isOkE x = false) :
    ∃ e, sequenceE l = .error e := by
  induction l with
  | nil => cases hx
  | cons a rest ih =>
    cases a with
    | error e => exact ⟨e, rfl⟩
    | ok v =>
      rcases List.mem_cons.mp hx with h1 | h1
      · subst h1
        simp [isOkE] at h
      · obtain ⟨e, he⟩ := ih h1
        refine ⟨e, ?_⟩
        simp only [sequenceE, he]
        rfl

/-- Claim C5: if any single target of a query fails to resolve, the whole
query rejects: the result is an error carrying no data, so no partial
results are returned. -/
theorem query_all_or_nothing (env : Env) (c : Cache) (targets : List QueryTarget)
    (h : ∃ q ∈ queryTargetsOf env targets,
        isOkE (resolveTarget env c q.1 q.2).1 = false) :
    ∃ e, (query env c targets).result = .error e := by
  obtain ⟨q, hq, hbad⟩ := h
  have hmem : (resolveTarget env c q.1 q.2).1 ∈
      ((queryTargetsOf env targets).map fun r => resolveTarget env c r.1 r.2).map
        fun r => r.1 := by
    rw [List.map_map]
    exact List.mem_map_of_mem _ hq
  obtain ⟨e, he⟩ := sequenceE_error_of_mem _ _ hmem hbad
  have hne : (queryTargetsOf env targets).isEmpty = false := by
    cases hqts : queryTargetsOf env targets with
    | nil => rw [hqts] at hq; cases hq
    | cons a l => rfl
  refine ⟨e, ?_⟩
  simp only [query, hne, Bool.false_eq_true, if_false]
  rw [he]

/-- The value a successfully resolving target contributes to the
`Promise.all` list, before flattening. -/
def targetDataOf (env : Env) (cache : Cache) (q : String × Bool) : TargetData :=
  match (fetchOrUseCached env cache q.1).result with
  | .ok table =>
    if q.2 then
      TargetData.many ((env.processChanges table).order.map fun name =>
        DataItem.series name name (seriesLookup (env.processChanges table).series name))
    else TargetData.single table
  | .error _ => TargetData.many []

theorem resolveTarget_ok (env : Env) (c : Cache) (q : String × Bool)
    (h : isOkE (fetchOrUseCached env c q.1).result = true) :
    (resolveTarget env c q.1 q.2).1 = .ok (targetDataOf env c q) := by
  unfold resolveTarget targetDataOf
  cases hr : (fetchOrUseCached env c q.1).result with
  | error e =>
    rw [hr] at h
    simp [isOkE] at h
  | ok table =>
    simp only [hr, Except.map]

theorem sequenceE_all_ok (env : Env) (c : Cache) (qts : List (String × Bool)) :
    (∀ q ∈ qts, isOkE (fetchOrUseCached env c q.1).result = true) →
    sequenceE (qts.map fun q => (resolveTarget env c q.1 q.2).1) =
      .ok (qts.map (targetDataOf env c)) := by
  induction qts with
  | nil => intro _; rfl
  | cons a rest ih =>
    intro hall
    simp only [List.map_cons]
    rw [resolveTarget_ok env c a (hall a (List.mem_cons_self a rest))]
    simp only [sequenceE]
    rw [ih fun q hq => hall q (List.mem_cons_of_mem a hq)]
    rfl

theorem flattenTargets_map_eq (env : Env) (c : Cache) (qts : List (String × Bool)) :
    flattenTargets (qts.map (targetDataOf env c)) = qts.flatMap (specEntryOf env c) := by
  induction qts with
  | nil => rfl
  | cons a rest ih =>
    simp only [List.map_cons, List.flatMap_cons]
    cases hr : (fetchOrUseCached env c a.1).result with
    | error e =>
      simp only [targetDataOf, specEntryOf, hr, flattenTargets, List.nil_append]
      exact ih
    | ok table =>
      by_cases hc2 : a.2
      · simp only [targetDataOf, specEntryOf, hr, hc2, if_true, flattenTargets]
        rw [ih]
      · simp only [targetDataOf, specEntryOf, hr, hc2, Bool.false_eq_true, if_false,
          flattenTargets, List.singleton_append]
        rw [ih]

/-- Claim C6: when every target resolves, the data list is exactly the
concatenation, in original target order, of each target's contribution:
one series entry per `SeriesInfo.order` name (in that order, name as
target and alias, datapoints from the series map) for a changes target,
and the raw table otherwise. -/
theorem query_success_order (env : Env) (c : Cache) (targets : List QueryTarget)
    (h : ∀ q ∈ queryTargetsOf env targets,
        isOkE (fetchOrUseCached env c q.1).result = true) :
    (query env c targets).result = .ok (querySpecData env c targets) := by
  cases hqts : queryTargetsOf env targets with
  | nil =>
    simp only [query, querySpecData, hqts, List.isEmpty_nil, if_true]
    rfl
  | cons a l =>
    rw [hqts] at h
    simp only [query, hqts, List.isEmpty_cons, Bool.false_eq_true, if_false,
      List.map_map, Function.comp_def]
    rw [sequenceE_all_ok env c (a :: l) h]
    simp only [querySpecData, hqts]
    rw [flattenTargets_map_eq env c (a :: l)]

/-- Claim C7: `testDatasource` always produces a structured status object:
success with the root file count on a successful listing, error otherwise,
with a generic message when the error has truthy `cancelled` and `err`
fields and the stringified error message otherwise. -/
theorem testDatasource_total (dir : DirectoryInfo) (e : ListError) :
    testDatasource (.ok dir) =
      ⟨"success", "Root Contains " ++ toString dir.files.length ++ " Files"⟩
    ∧ (testDatasource (.error e)).status = "error"
    ∧ (e.cancelled = true → e.err = true →
        (testDatasource (.error e)).message =
          "Error making HTTP request.  Check the javascrit console for more information")
    ∧ (¬(e.cancelled = true ∧ e.err = true) →
        (testDatasource (.error e)).message = "Error: " ++ e.msg) := by
  refine ⟨rfl, ?_, ?_, ?_⟩
  · unfold testDatasource
    by_cases hb : e.cancelled && e.err
    · simp [hb]
    · simp [hb]
  · intro h1 h2
    unfold testDatasource
    simp [h1, h2]
  · intro h
    have hb : (e.cancelled && e.err) = false := by
      cases hc : e.cancelled <;> cases he2 : e.err <;> simp_all
    unfold testDatasource
    simp [hb]

def tblA : Table := ⟨["name", "value"], [["a", "1"]]⟩

def tblB : Table := ⟨["k"], []⟩

def ctA : CachedTable := ⟨"a.csv", some tblA, 1⟩

def cacheA : Cache := [("a.csv", ctA)]

def resA : Response := ⟨some "text/csv"⟩

def infoA : SeriesInfo := ⟨["x"], [("x", [(1, 10)])]⟩

def envA : Env := ⟨fun _ _ => .ok resA, fun _ _ _ => .ok tblB, fun s => s, 7, fun _ => infoA⟩

def envFail : Env :=
  ⟨fun _ _ => .error "FetchError", fun _ _ _ => .error "FormatError", fun s => s, 0,
   fun _ => infoA⟩

def tgtA : QueryTarget := ⟨some "a.csv", false⟩

def tgtChanges : QueryTarget := ⟨some "b.json", true⟩

def tgtEmpty : QueryTarget := ⟨some "", false⟩

def tgtNone : QueryTarget := ⟨none, true⟩

def dirA : DirectoryInfo := ⟨["f1", "f2"]⟩

def errCancelled : ListError := ⟨"boom", true, true⟩

def errPlain : ListError := ⟨"boom", false, true⟩

/-- Witness for C1 at concrete inputs: a hit on `cacheA` and a miss on the
empty cache. -/
theorem cache_hit_or_fetch_parse_store_witness :
    (cacheGet cacheA "a.csv" = some ctA ∧ ctA.table = some tblA ∧
      fetchOrUseCached envA cacheA "a.csv" = ⟨.ok tblA, cacheA, []⟩)
    ∧ (cacheHitTable ([] : Cache) "p.csv" = none
        ∧ envA.fetch "p.csv" (getExt "p.csv" == "avro") = .ok resA
        ∧ envA.parse (selectParser resA.contentType (getExt "p.csv" == "avro")) resA
            resA.contentType = .ok tblB
        ∧ fetchOrUseCached envA ([] : Cache) "p.csv" =
            ⟨.ok tblB, cacheSet ([] : Cache) "p.csv" ⟨"p.csv", some tblB, envA.now⟩,
             [("p.csv", getExt "p.csv" == "avro")]⟩) :=
  ⟨⟨rfl, rfl, (cache_hit_or_fetch_parse_store envA cacheA "a.csv").1 ctA tblA rfl rfl⟩,
   ⟨rfl, rfl, rfl,
    (cache_hit_or_fetch_parse_store envA ([] : Cache) "p.csv").2 resA tblB rfl rfl rfl⟩⟩

/-- Witness for C2 at a query whose two targets have an empty and an
absent path. -/
theorem query_empty_targets_witness :
    (∀ t ∈ [tgtEmpty, tgtNone], truthyPath t.path = false)
    ∧ query envA ([] : Cache) [tgtEmpty, tgtNone] = ⟨.ok [], []⟩ := by
  refine ⟨?_, (query_empty_targets envA ([] : Cache) [tgtEmpty, tgtNone]).1 ?_⟩ <;> decide

/-- Witness for C3 (amended) at the discriminator "zzz". -/
theorem unknown_discriminator_safe_witness :
    ("zzz" ≠ "local" ∧ "zzz" ≠ "nginx" ∧ "zzz" ≠ "s3" ∧ "zzz" ≠ "constructor"
      ∧ "zzz" ∉ objectProtoKeys)
    ∧ constructBackend (some "zzz") = ConstructionResult.installs FSKind.unknownFS :=
  ⟨⟨by decide, by decide, by decide, by decide, by decide⟩,
   (unknown_discriminator_safe "zzz" (by decide) (by decide) (by decide) (by decide)
     (by decide)).1⟩

/-- Witness for C4: one concrete input per branch of the selection. -/
theorem parser_selection_total_witness :
    (ctContainsJson (some "application/json") = true ∧
      selectParser (some "application/json") ("csv" == "avro") = .json)
    ∧ (ctContainsJson none = false ∧
      selectParser none ("avro" == "avro") = .avro)
    ∧ (ctContainsJson (some "text/csv") = false ∧ "txt" ≠ "avro" ∧
      selectParser (some "text/csv") ("txt" == "avro") = .csv) :=
  ⟨⟨by decide, (parser_selection_total (some "application/json") "csv").1 (by decide)⟩,
   ⟨by decide, (parser_selection_total none "avro").2.1 (by decide) rfl⟩,
   ⟨by decide, by decide,
    (parser_selection_total (some "text/csv") "txt").2.2 (by decide) (by decide)⟩⟩

/-- Witness for C5 at a single-target query whose backend fetch fails. -/
theorem query_all_or_nothing_witness :
    (∃ q ∈ queryTargetsOf envFail [tgtA],
        isOkE (resolveTarget envFail ([] : Cache) q.1 q.2).1 = false)
    ∧ ∃ e, (query envFail ([] : Cache) [tgtA]).result = .error e :=
  ⟨⟨("a.csv", false), by decide, by decide⟩,
   query_all_or_nothing envFail ([] : Cache) [tgtA]
     ⟨("a.csv", false), by decide, by decide⟩⟩

/-- Witness for C6 at a two-target query (one raw, one changes). -/
theorem query_success_order_witness :
    (∀ q ∈ queryTargetsOf envA [tgtA, tgtChanges],
        isOkE (fetchOrUseCached envA ([] : Cache) q.1).result = true)
    ∧ (query envA ([] : Cache) [tgtA, tgtChanges]).result =
        .ok (querySpecData envA ([] : Cache) [tgtA, tgtChanges]) := by
  refine ⟨?_, query_success_order envA ([] : Cache) [tgtA, tgtChanges] ?_⟩ <;> decide

/-- Witness for C7 at a concrete listing, a cancelled request error and a
plain error. -/
theorem testDatasource_total_witness :
    testDatasource (.ok dirA) =
      ⟨"success", "Root Contains " ++ toString dirA.files.length ++ " Files"⟩
    ∧ (testDatasource (.error errCancelled)).status = "error"
    ∧ (errCancelled.cancelled = true ∧ errCancelled.err = true ∧
        (testDatasource (.error errCancelled)).message =
          "Error making HTTP request.  Check the javascrit console for more information")
    ∧ (¬(errPlain.cancelled = true ∧ errPlain.err = true) ∧
        (testDatasource (.error errPlain)).message = "Error: " ++ errPlain.msg) :=
  ⟨(testDatasource_total dirA errCancelled).1,
   (testDatasource_total dirA errCancelled).2.1,
   ⟨rfl, rfl, (testDatasource_total dirA errCancelled).2.2.1 rfl rfl⟩,
   ⟨by decide, (testDatasource_total dirA errPlain).2.2.2 (by decide)⟩⟩

/-- Witness for C8 on the one-entry cache `cacheA`. -/
theorem cache_per_path_invariants_witness :
    cacheGet (cacheSet cacheA "a.csv" ctA) "a.csv" = some ctA
    ∧ ("b.csv" ≠ "a.csv" ∧
        cacheGet (cacheSet cacheA "a.csv" ctA) "b.csv" = cacheGet cacheA "b.csv")
    ∧ ((cacheA.map Prod.fst).Nodup ∧ ((cacheSet cacheA "a.csv" ctA).map Prod.fst).Nodup)
    ∧ (((fetchOrUseCached envA cacheA "p.csv").cache).map Prod.fst).Nodup
    ∧ (cacheGet cacheA "a.csv" = some ctA ∧
        ∃ u, cacheGet ((fetchOrUseCached envA cacheA "p.csv").cache) "a.csv" = some u)
    ∧ ("a.csv" ≠ "p.csv" ∧
        cacheGet ((fetchOrUseCached envA cacheA "p.csv").cache) "a.csv" = some ctA) :=
  ⟨(cache_per_path_invariants envA cacheA "a.csv").1 ctA,
   ⟨by decide, (cache_per_path_invariants envA cacheA "a.csv").2.1 ctA "b.csv" (by decide)⟩,
   ⟨by decide, (cache_per_path_invariants envA cacheA "a.csv").2.2.1 ctA (by decide)⟩,
   (cache_per_path_invariants envA cacheA "p.csv").2.2.2.1 (by decide),
   ⟨rfl, (cache_per_path_invariants envA cacheA "p.csv").2.2.2.2.1 "a.csv" ctA rfl⟩,
   ⟨by decide, (cache_per_path_invariants envA cacheA "p.csv").2.2.2.2.2 "a.csv" ctA
     (by decide) rfl⟩⟩

/-- Witness for C9 at a failing fetch on the empty cache. -/
theorem fetch_failure_leaves_cache_unchanged_witness :
    (fetchOrUseCached envFail ([] : Cache) "a.csv").result = .error "FetchError"
    ∧ (fetchOrUseCached envFail ([] : Cache) "a.csv").cache = ([] : Cache) :=
  ⟨rfl, fetch_failure_leaves_cache_unchanged envFail ([] : Cache) "a.csv" "FetchError" rfl⟩

/-- Witness for C10 at a mixed-case avro path with a query string. -/
theorem binary_fetch_iff_avro_extension_witness :
    (cacheHitTable ([] : Cache) "x.AvRo?q=1" = none ∧
      (fetchOrUseCached envFail ([] : Cache) "x.AvRo?q=1").fetches =
        [("x.AvRo?q=1", getExt "x.AvRo?q=1" == "avro")])
    ∧ (getExt "x.AvRo?q=1" == "avro") = true
    ∧ getExt "x.AvRo?q=1" = getExtSpec "x.AvRo?q=1" :=
  ⟨⟨rfl, (binary_fetch_iff_avro_extension envFail ([] : Cache) "x.AvRo?q=1").1 rfl⟩,
   by decide,
   (binary_fetch_iff_avro_extension envFail ([] : Cache) "x.AvRo?q=1").2⟩

end AvroDS
